import Mathlib

/-!
Verification of the ARSandbox_Snow remote-streaming core against its
natural-language specification.

The development shallowly embeds the C++ sources:
  * `src/RemoteServer.cpp` / `src/RemoteServer.h` — server session handling,
    handshake, pose messages, snapshot broadcast;
  * `src/SandboxClient.cpp` / `src/SandboxClient.h` — client grid decoding and
    the ray/heightfield intersector.

Real-number arithmetic of the sources (GLfloat / Vrui::Scalar) is modelled
exactly over ℚ; machine integers are modelled as ℕ / ℤ.  Network pipes are
modelled as lists of already-framed reads; a read past the end of the list
models a read that throws.
-/

namespace ARSandboxSnow

/-! ## Wire codec: elevation quantization

Server side (RemoteServer.cpp, communicationThreadMethod, lines 212-246):
`eScale = 65535/(elevationRange[1]-elevationRange[0])`,
`eOffset = 0.5 - elevationRange[0]*eScale`, `se = e*eScale+eOffset`;
writes 0 if `se<=0`, 65535 if `se>=65535`, else `UInt16(se)` (C++ float→u16
conversion truncates; `se` is positive in that branch, so it is the floor).

Client side (SandboxClient.cpp, readGrids, lines 337-360):
`eScale = (elevationRange[1]-elevationRange[0])/65535`,
`eOffset = elevationRange[0]`, sample `= code*eScale+eOffset`.
-/

/-- Server-side elevation quantization, from RemoteServer.cpp lines 212-214
and 225-231 (the same code is repeated for the water grid at 239-245). -/
def quantize (emin emax e : ℚ) : ℕ :=
  let eScale : ℚ := 65535 / (emax - emin)
  let eOffset : ℚ := 1/2 - emin * eScale
  let se : ℚ := e * eScale + eOffset
  if se ≤ 0 then 0
  else if 65535 ≤ se then 65535
  else (⌊se⌋).toNat

/-- Client-side elevation dequantization, from SandboxClient.cpp lines 342-350. -/
def dequantize (emin emax : ℚ) (code : ℕ) : ℚ :=
  let eScale : ℚ := (emax - emin) / 65535
  let eOffset : ℚ := emin
  (code : ℚ) * eScale + eOffset

/-- Truncation of a rational toward zero, used to state the spec formula
"integer truncation of raw" independently of the source's floor. -/
def ratTrunc (q : ℚ) : ℤ := if q < 0 then -⌊-q⌋ else ⌊q⌋

/-- Modelled from the spec's words (refinement reference, §4.3 Elevation
quantization): `scale = 65535/(max-min)`, `bias = 0.5 - min*scale`,
`raw = e*scale+bias`; code = 0 if raw ≤ 0, 65535 if raw ≥ 65535, else the
integer truncation of raw. -/
def specEncode (emin emax e : ℚ) : ℕ :=
  let scale : ℚ := 65535 / (emax - emin)
  let bias : ℚ := 1/2 - emin * scale
  let raw : ℚ := e * scale + bias
  if raw ≤ 0 then 0
  else if 65535 ≤ raw then 65535
  else (ratTrunc raw).toNat

/-- Modelled from the spec's words (refinement reference, §4.3 Decode):
`e = code · (max−min)/65535 + min`. -/
def specDecode (emin emax : ℚ) (code : ℕ) : ℚ :=
  (code : ℚ) * (emax - emin) / 65535 + emin

/-- Row-major enumeration of a `w × h` grid (y outer, x inner), matching the
nested `for(y) for(x)` loops walking a row-major array in both endpoints. -/
def rowMajor (w h : ℕ) (g : ℕ → ℕ → ℚ) : List ℚ :=
  (List.range h).flatMap fun y => (List.range w).map fun x => g x y

/-- Sequence of 16-bit codes the server writes for one snapshot message:
the `(w-1)*(h-1)` bathymetry samples in row-major order, then the `w*h`
water-level samples in row-major order, each quantized with the
connection-wide elevation range (RemoteServer.cpp lines 216-249).
The message carries no tag and nothing else. -/
def serverGridMessage (w h : ℕ) (emin emax : ℚ) (bathymetry waterLevel : ℕ → ℕ → ℚ) :
    List ℕ :=
  (rowMajor (w - 1) (h - 1) bathymetry).map (quantize emin emax)
    ++ (rowMajor w h waterLevel).map (quantize emin emax)

/-- Client-side loop reading `n` consecutive u16 codes from the pipe and
dequantizing each (SandboxClient.cpp lines 346-356); `none` models a read
that throws (not enough data on the stream). -/
def readSamples (emin emax : ℚ) : ℕ → List ℕ → Option (List ℚ × List ℕ)
  | 0, pipe => some ([], pipe)
  | _ + 1, [] => none
  | n + 1, code :: rest =>
    match readSamples emin emax n rest with
    | some (vals, rest') => some (dequantize emin emax code :: vals, rest')
    | none => none

/-- SandboxClient::readGrids (SandboxClient.cpp lines 337-360): reads the
`(w-1)*(h-1)` bathymetry codes then the `w*h` water-level codes, dequantizing
each; returns the decoded grids (row-major) and the unread remainder of the
pipe, or `none` if any read throws. -/
def readGrids (w h : ℕ) (emin emax : ℚ) (pipe : List ℕ) :
    Option (List ℚ × List ℚ × List ℕ) :=
  match readSamples emin emax ((w - 1) * (h - 1)) pipe with
  | none => none
  | some (bathy, rest) =>
    match readSamples emin emax (w * h) rest with
    | none => none
    | some (water, rest') => some (bathy, water, rest')

/-! ## Client-side receive path (SandboxClient.cpp lines 503-520)

`SandboxClient::serverMessageCallback` runs `readGrids()` inside a
try/catch whose handler is empty, and returns `false` (keep the listener)
on every path.  The state models what the callback can affect: the last
published grid pair (posted only by a complete `readGrids`) and whether the
TCP pipe is open (no callback path deletes or closes the pipe). -/

/-- Observable client connection state for the receive callback. -/
structure SandboxClientState where
  published : Option (List ℚ × List ℚ)
  pipeOpen : Bool
deriving DecidableEq

/-- SandboxClient::serverMessageCallback (lines 503-520): attempt to read one
snapshot message; on success publish the decoded grids; on a decode error the
empty catch block swallows the exception; either way return `false`, meaning
the dispatcher keeps the listener registered. -/
def serverMessageCallback (w h : ℕ) (emin emax : ℚ) (pipe : List ℕ)
    (st : SandboxClientState) : SandboxClientState × Bool :=
  match readGrids w h emin emax pipe with
  | some (bathy, water, _) => ({ st with published := some (bathy, water) }, false)
  | none => (st, false)


/-! ## Ray / heightfield intersector (SandboxClient.cpp lines 362-501)

`SandboxClient::intersectLine` works on `Vrui::Scalar` (double); the
arithmetic is modelled exactly over ℚ.  The only irrational operation,
`Math::sqrt` in the quadratic branch, is taken as an explicit function
parameter `sq`; every property proved below is independent of it (the
cases exercised have a vanishing quadratic coefficient, so `sq` is never
applied).  The bathymetry grid, a row-major array of width `gridSize[0]-1`
indexed at offsets `0`, `1`, `gridSize[0]-1`, `gridSize[0]` from the cell
base, is modelled as a two-argument function; the four offsets correspond to
the corners `(x,y)`, `(x+1,y)`, `(x,y+1)`, `(x+1,y+1)`. -/

/-- A 3D point / vector with exact-rational components. -/
structure Pt3 where
  x : ℚ
  y : ℚ
  z : ℚ
deriving DecidableEq

/-- Clip one axis of the segment against the lower grid boundary 0
(first half of the loop body at SandboxClient.cpp lines 372-389);
`none` models the early `return Scalar(1)`. -/
def clipAxisLower (p0 p1 d : ℚ) (l : ℚ × ℚ) : Option (ℚ × ℚ) :=
  if p0 < 0 then
    (if 0 < p1 then some (max l.1 ((0 - p0) / d), l.2) else none)
  else if p1 < 0 then
    (if 0 < p0 then some (l.1, min l.2 ((0 - p0) / d)) else none)
  else some l

/-- Clip one axis of the segment against the upper grid boundary
`gridSize[i]-2` (second half of the loop body at lines 391-406). -/
def clipAxisUpper (bnd p0 p1 d : ℚ) (l : ℚ × ℚ) : Option (ℚ × ℚ) :=
  if bnd < p0 then
    (if p1 < bnd then some (max l.1 ((bnd - p0) / d), l.2) else none)
  else if bnd < p1 then
    (if p0 < bnd then some (l.1, min l.2 ((bnd - p0) / d)) else none)
  else some l

/-- Both clip passes of lines 369-407, axis 0 then axis 1, starting from
`[l0,l1] = [0,1]`. -/
def clipSegment (w h : ℕ) (gp0 gp1 gd : Pt3) : Option (ℚ × ℚ) :=
  match clipAxisLower gp0.x gp1.x gd.x (0, 1) with
  | none => none
  | some l =>
    match clipAxisUpper ((w : ℚ) - 2) gp0.x gp1.x gd.x l with
    | none => none
    | some l =>
      match clipAxisLower gp0.y gp1.y gd.y l with
      | none => none
      | some l => clipAxisUpper ((h : ℚ) - 2) gp0.y gp1.y gd.y l

/-- Math::clamp on integers, conditional form. -/
def iclamp (v lo hi : ℤ) : ℤ := if v < lo then lo else if hi < v then hi else v

/-- Locate the cell containing the segment entry point (lines 411-415):
`gp = affineCombination(gp0,gp1,l0)`, floor per axis, clamp to
`[0, gridSize[i]-3]`. -/
def entryCell (w h : ℕ) (gp0 gp1 : Pt3) (l0 : ℚ) : ℤ × ℤ :=
  let gx := gp0.x + (gp1.x - gp0.x) * l0
  let gy := gp0.y + (gp1.y - gp0.y) * l0
  (iclamp ⌊gx⌋ 0 ((w : ℤ) - 3), iclamp ⌊gy⌋ 0 ((h : ℤ) - 3))

/-- Parameter at which the segment leaves the current cell and the axis to
step (lines 419-434); exit axis `-1` means the segment ends in this cell. -/
def cellExit (gp0 gp1 gd : Pt3) (cp : ℤ × ℤ) (l1 : ℚ) : ℚ × ℤ :=
  let el0 := if gp0.x < gp1.x then (((cp.1 : ℚ) + 1) - gp0.x) / gd.x
             else if gp1.x < gp0.x then ((cp.1 : ℚ) - gp0.x) / gd.x
             else l1
  let s0 : ℚ × ℤ := if el0 < l1 then (el0, 0) else (l1, -1)
  let el1 := if gp0.y < gp1.y then (((cp.2 : ℚ) + 1) - gp0.y) / gd.y
             else if gp1.y < gp0.y then ((cp.2 : ℚ) - gp0.y) / gd.y
             else s0.1
  if el1 < s0.1 then (el1, 1) else s0

/-- Coefficients `(a, b, c)` of the quadratic `a·λ² + b·λ + c = 0` obtained by
substituting the segment into the bilinear patch of the current cell
(lines 437-454). -/
def cellCoeffs (bathymetry : ℤ → ℤ → ℚ) (cp : ℤ × ℤ) (gp0 gd : Pt3) : ℚ × ℚ × ℚ :=
  let c0 := bathymetry cp.1 cp.2
  let c1 := bathymetry (cp.1 + 1) cp.2
  let c2 := bathymetry cp.1 (cp.2 + 1)
  let c3 := bathymetry (cp.1 + 1) (cp.2 + 1)
  let cx0 : ℚ := (cp.1 : ℚ)
  let cx1 : ℚ := (cp.1 : ℚ) + 1
  let cy0 : ℚ := (cp.2 : ℚ)
  let cy1 : ℚ := (cp.2 : ℚ) + 1
  let fxy := c0 - c1 + c3 - c2
  let fx := (c1 - c0) * cy1 - (c3 - c2) * cy0
  let fy := (c2 - c0) * cx1 - (c3 - c1) * cx0
  let f := (c0 * cx1 - c1 * cx0) * cy1 - (c2 * cx1 - c3 * cx0) * cy0
  let a := fxy * gd.x * gd.y
  let bc0 := fxy * gp0.y + fx
  let bc1 := fxy * gp0.x + fy
  let b := bc0 * gd.x + bc1 * gd.y - gd.z
  let c := bc0 * gp0.x + bc1 * gp0.y - gp0.z - fxy * gp0.x * gp0.y + f
  (a, b, c)

/-- Root selection of lines 455-483: `il` starts at `cl1`; for `a ≠ 0` and
nonnegative discriminant the sign-of-b form picks the smaller root first and
falls back to the other if it lies before `cl0`; for `a = 0` the linear
equation gives `-c/b`. -/
def solveCell (sq : ℚ → ℚ) (cl0 cl1 : ℚ) (abc : ℚ × ℚ × ℚ) : ℚ :=
  let a := abc.1
  let b := abc.2.1
  let c := abc.2.2
  if a ≠ 0 then
    let det := b * b - 4 * a * c
    if 0 ≤ det then
      let d := sq det
      if 0 < a then
        let il := if 0 ≤ b then (-b - d) / (2 * a) else (2 * c) / (-b + d)
        if il < cl0 then (if 0 ≤ b then (2 * c) / (-b - d) else (-b + d) / (2 * a)) else il
      else
        let il := if 0 ≤ b then (2 * c) / (-b - d) else (-b + d) / (2 * a)
        if il < cl0 then (if 0 ≤ b then (-b - d) / (2 * a) else (2 * c) / (-b + d)) else il
    else cl1
  else -c / b

/-- Cell-traversal loop of lines 416-498, with explicit fuel for the while
loop (each iteration either returns or advances one cell; the caller passes
more fuel than any traversal can use, and fuel exhaustion returns the
fall-through value 1). -/
def intersectLoop (sq : ℚ → ℚ) (bathymetry : ℤ → ℤ → ℚ) (gp0 gp1 gd : Pt3)
    (l1 : ℚ) : ℕ → ℤ × ℤ → ℚ → ℚ
  | 0, _, _ => 1
  | fuel + 1, cp, cl0 =>
    if cl0 < l1 then
      let ec := cellExit gp0 gp1 gd cp l1
      let il := solveCell sq cl0 ec.1 (cellCoeffs bathymetry cp gp0 gd)
      if cl0 ≤ il ∧ il < ec.1 then il
      else
        let cp' :=
          if ec.2 = 0 then (if gd.x < 0 then (cp.1 - 1, cp.2) else (cp.1 + 1, cp.2))
          else if ec.2 = 1 then (if gd.y < 0 then (cp.1, cp.2 - 1) else (cp.1, cp.2 + 1))
          else cp
        intersectLoop sq bathymetry gp0 gp1 gd l1 fuel cp' ec.1
    else 1

/-- SandboxClient::intersectLine (lines 362-501): convert the endpoints to
grid coordinates (`p/cellSize - 0.5` per horizontal axis), clip, locate the
entry cell, and traverse. Returns the smallest crossing parameter in `[0,1)`
or 1 when none is found. -/
def intersectLine (sq : ℚ → ℚ) (w h : ℕ) (cellSize : ℚ × ℚ)
    (bathymetry : ℤ → ℤ → ℚ) (p0 p1 : Pt3) : ℚ :=
  let gp0 : Pt3 := ⟨p0.x / cellSize.1 - 1/2, p0.y / cellSize.2 - 1/2, p0.z⟩
  let gp1 : Pt3 := ⟨p1.x / cellSize.1 - 1/2, p1.y / cellSize.2 - 1/2, p1.z⟩
  let gd : Pt3 := ⟨gp1.x - gp0.x, gp1.y - gp0.y, gp1.z - gp0.z⟩
  match clipSegment w h gp0 gp1 gd with
  | none => 1
  | some l =>
    if l.1 ≥ l.2 then 1
    else intersectLoop sq bathymetry gp0 gp1 gd l.2 (w + h + 2) (entryCell w h gp0 gp1 l.1) l.1

/-- Coefficients of the first per-cell surface solve that `intersectLine`
reaches, obtained by composing the same clip, entry-cell and coefficient
definitions; `none` when the segment is clipped away before any solve. -/
def firstCellSetup (w h : ℕ) (cellSize : ℚ × ℚ) (bathymetry : ℤ → ℤ → ℚ)
    (p0 p1 : Pt3) : Option (ℚ × ℚ × ℚ) :=
  let gp0 : Pt3 := ⟨p0.x / cellSize.1 - 1/2, p0.y / cellSize.2 - 1/2, p0.z⟩
  let gp1 : Pt3 := ⟨p1.x / cellSize.1 - 1/2, p1.y / cellSize.2 - 1/2, p1.z⟩
  let gd : Pt3 := ⟨gp1.x - gp0.x, gp1.y - gp0.y, gp1.z - gp0.z⟩
  match clipSegment w h gp0 gp1 gd with
  | none => none
  | some l =>
    if l.1 ≥ l.2 then none
    else some (cellCoeffs bathymetry (entryCell w h gp0 gp1 l.1) gp0 gd)


/-! ## Server session handling (RemoteServer.cpp / RemoteServer.h)

`RemoteServer` keeps a `std::vector<Client*> clients` and a counter
`numClients` of clients in streaming state.  Clients are identified here by a
numeric id `cid` standing for the C++ object pointer: ids are handed out by a
`nextId` counter on accept, which models pointer freshness.  The dispatcher's
listener registry lives outside the class; a callback returning `true` tells
the dispatcher to deregister the session's listener. -/

/-- Protocol states of `RemoteServer::Client` (RemoteServer.h lines 76-79):
`START` then `STREAMING`. -/
inductive ClientState
  | start
  | streaming
deriving DecidableEq

/-- One connected client (RemoteServer.h lines 72-91): identity, protocol
state, the pipe's byte-swap flag, and the latest reported pose. -/
structure Client where
  cid : ℕ
  state : ClientState
  swapOnRead : Bool
  position : ℚ × ℚ × ℚ
  direction : ℚ × ℚ × ℚ
deriving DecidableEq

/-- A freshly constructed client: `START` state, byte-swap disabled
(RemoteServer.cpp lines 42-47; a new TCPPipe does not swap on read). -/
def blankClient : Client :=
  ⟨0, ClientState.start, false, (0, 0, 0), (0, 0, 0)⟩

/-- Server state visible to the claims: the client list, the streaming-client
counter, and the fresh-id counter standing for pointer allocation. -/
structure ServerState where
  clients : List Client
  numClients : ℕ
  nextId : ℕ
deriving DecidableEq

/-- Removal step of RemoteServer::disconnectClient (lines 69-71):
`*cIt = clients.back(); clients.pop_back();` — overwrite position `i` with
the last element, then drop the last element. -/
def removeSwapBack (i : ℕ) (l : List Client) : List Client :=
  (l.set i (l.getLastD blankClient)).dropLast

/-- Index of the client the `for` loop of disconnectClient finds by pointer
equality (lines 56-57), modelled as the first index with the given id. -/
def findClientIdx (k : ℕ) (l : List Client) : Option ℕ :=
  l.findIdx? (fun c => c.cid == k)

/-- RemoteServer::disconnectClient (lines 53-78): find the client in the
list; decrement `numClients` if it was streaming; remove it swap-with-back;
delete it.  The `removeListener` flag only touches the dispatcher registry,
which lives outside this state. -/
def disconnectClient (removeListener : Bool) (k : ℕ) (st : ServerState) : ServerState :=
  match findClientIdx k st.clients with
  | none => st
  | some i =>
    match st.clients[i]? with
    | none => st
    | some c =>
      { st with
          clients := removeSwapBack i st.clients
          numClients :=
            st.numClients - (if c.state = ClientState.streaming then 1 else 0) }

/-- RemoteServer::newConnectionCallback (lines 80-121): on success the new
`START` client is pushed onto the list (the endianness token and geometry
payload writes do not change server state); on an exception the
half-constructed client is discarded and the state is unchanged. -/
def newConnectionCallback (ok : Bool) (st : ServerState) : ServerState :=
  if ok then
    { st with
        clients := st.clients ++ [{ blankClient with cid := st.nextId }]
        nextId := st.nextId + 1 }
  else st

/-- Data available for one client→server read: the 4-byte value as the
pipe returns it (`token`), and — for streaming reads — the u16 message tag
followed by 3 position floats and 3 direction floats.  The handler consumes
the fields its state asks for. -/
structure ClientInput where
  token : ℕ
  tag : ℕ
  pos : ℚ × ℚ × ℚ
  dir : ℚ × ℚ × ℚ

/-- Endianness check of RemoteServer::clientMessageCallback, `START` case
(lines 134-147): `0x78563412` read → enable swap-on-read and stream;
any value other than `0x12345678` → throw (`none`); otherwise stream. -/
def startTransition (token : ℕ) (c : Client) : Option Client :=
  if token = 0x78563412 then
    some { c with swapOnRead := true, state := ClientState.streaming }
  else if token ≠ 0x12345678 then none
  else some { c with state := ClientState.streaming }

/-- RemoteServer::clientMessageCallback (lines 123-182).  `inp = none` models
a read that throws (e.g. peer reset).  The returned `Bool` is the callback's
return value: `true` tells the dispatcher to stop listening on the client's
socket.  Any thrown error is caught and handled by
`disconnectClient(client, false)` followed by `return true`. -/
def clientMessageCallback (k : ℕ) (inp : Option ClientInput) (st : ServerState) :
    ServerState × Bool :=
  match findClientIdx k st.clients with
  | none => (st, false)
  | some i =>
    match st.clients[i]? with
    | none => (st, false)
    | some c =>
      match inp with
      | none => (disconnectClient false k st, true)
      | some inp =>
        match c.state with
        | ClientState.start =>
          match startTransition inp.token c with
          | none => (disconnectClient false k st, true)
          | some c' =>
            ({ st with
                clients := st.clients.set i c'
                numClients := st.numClients + 1 }, false)
        | ClientState.streaming =>
          if inp.tag = 0 then
            ({ st with clients :=
                st.clients.set i { c with position := inp.pos, direction := inp.dir } },
              false)
          else (disconnectClient false k st, true)

/-- Broadcast loop body of RemoteServer::communicationThreadMethod
(lines 209-257): walk the client list in order; for each streaming client
attempt the full snapshot write — a failing write puts the client on the
dead list, a successful one delivers the message; non-streaming clients are
skipped.  `fails` says whose write throws.  Returns (deliveries, dead). -/
def broadcastPass (msg : List ℕ) (fails : ℕ → Bool) :
    List Client → List (ℕ × List ℕ) × List Client
  | [] => ([], [])
  | c :: rest =>
    let r := broadcastPass msg fails rest
    if c.state = ClientState.streaming then
      (if fails c.cid then (r.1, c :: r.2) else ((c.cid, msg) :: r.1, r.2))
    else r

/-- One grid broadcast of communicationThreadMethod (lines 202-262): build
the snapshot message once per pass, deliver to every streaming client whose
write succeeds, collect failures, then disconnect all dead clients (with
listener removal). -/
def communicationBroadcast (w h : ℕ) (emin emax : ℚ)
    (bathymetry waterLevel : ℕ → ℕ → ℚ) (fails : ℕ → Bool) (st : ServerState) :
    ServerState × List (ℕ × List ℕ) :=
  let r := broadcastPass (serverGridMessage w h emin emax bathymetry waterLevel)
    fails st.clients
  (r.2.foldl (fun s c => disconnectClient true c.cid s) st, r.1)

/-- Server states reachable from construction (`clients` empty,
`numClients = 0`, RemoteServer.cpp lines 277-311) by accepts, client
messages (including failing reads), and grid broadcasts. -/
inductive Reachable : ServerState → Prop
  | init : Reachable ⟨[], 0, 0⟩
  | accept (ok : Bool) {st : ServerState} :
      Reachable st → Reachable (newConnectionCallback ok st)
  | message (k : ℕ) (inp : Option ClientInput) {st : ServerState} :
      Reachable st → Reachable (clientMessageCallback k inp st).1
  | broadcast (w h : ℕ) (emin emax : ℚ) (bathymetry waterLevel : ℕ → ℕ → ℚ)
      (fails : ℕ → Bool) {st : ServerState} :
      Reachable st →
      Reachable (communicationBroadcast w h emin emax bathymetry waterLevel fails st).1

/-- Number of clients in streaming state. -/
def streamingCount (l : List Client) : ℕ :=
  l.countP (fun c => c.state == ClientState.streaming)


/-- The server invariant: client ids are unique and below the allocation
counter, and `numClients` counts exactly the streaming clients. -/
def Inv (st : ServerState) : Prop :=
  (∀ k : ℕ, st.clients.countP (fun c => c.cid == k) ≤ 1) ∧
  (∀ c ∈ st.clients, c.cid < st.nextId) ∧
  st.numClients = streamingCount st.clients


example : quantize 0 1 (1/3) = 21845 := by
  norm_num [quantize]
  rfl
example : dequantize 0 1 21845 = 1/3 := by norm_num [dequantize]
example : quantize 0 1 2 = 65535 := by norm_num [quantize]
example : quantize 0 1 (-1) = 0 := by norm_num [quantize]

/-- Helper: `readSamples` consumes exactly `n` codes and decodes them in
order. -/
theorem readSamples_eq_some (emin emax : ℚ) :
    ∀ (n : ℕ) (pipe : List ℕ), n ≤ pipe.length →
      readSamples emin emax n pipe =
        some ((pipe.take n).map (dequantize emin emax), pipe.drop n) := by
  intro n
  induction n with
  | zero => intro pipe _; simp [readSamples]
  | succ m ih =>
    intro pipe hlen
    cases pipe with
    | nil => simp at hlen
    | cons c rest =>
      simp only [List.length_cons, Nat.succ_le_succ_iff] at hlen
      simp [readSamples, ih rest hlen]

/-- Helper: `readSamples` fails exactly when the pipe is too short. -/
theorem readSamples_eq_none (emin emax : ℚ) :
    ∀ (n : ℕ) (pipe : List ℕ), pipe.length < n →
      readSamples emin emax n pipe = none := by
  intro n
  induction n with
  | zero => intro pipe h; simp at h
  | succ m ih =>
    intro pipe hlen
    cases pipe with
    | nil => simp [readSamples]
    | cons c rest =>
      simp only [List.length_cons, Nat.succ_lt_succ_iff] at hlen
      simp [readSamples, ih rest hlen]

/-- Helper: length of a row-major enumeration. -/
theorem rowMajor_length (w h : ℕ) (g : ℕ → ℕ → ℚ) :
    (rowMajor w h g).length = w * h := by
  simp [rowMajor, Function.comp_def, List.map_const', List.sum_replicate, smul_eq_mul,
    mul_comm]

/-- C1: for every elevation value and every connection-wide range, the server
encodes with `raw = e*(65535/(max-min)) + (0.5 - min*(65535/(max-min)))`,
clamping to 0 below, 65535 above, and truncating otherwise; the client decodes
a code `k` to `k*(max-min)/65535 + min`; and these exact formulas are applied
to every sample of both grids: the server message is the per-sample encoding
of the row-major bathymetry and water grids, and the client decodes every code
it reads with the decode formula, in order. -/
theorem wire_codec_matches_spec (emin emax : ℚ) :
    (∀ e : ℚ, quantize emin emax e = specEncode emin emax e) ∧
    (∀ k : ℕ, dequantize emin emax k = specDecode emin emax k) ∧
    (∀ (w h : ℕ) (bathymetry waterLevel : ℕ → ℕ → ℚ),
      serverGridMessage w h emin emax bathymetry waterLevel =
        (rowMajor (w - 1) (h - 1) bathymetry).map (specEncode emin emax)
          ++ (rowMajor w h waterLevel).map (specEncode emin emax)) ∧
    (∀ (n : ℕ) (pipe : List ℕ) (vals : List ℚ) (rest : List ℕ),
      readSamples emin emax n pipe = some (vals, rest) →
        vals = (pipe.take n).map (specDecode emin emax) ∧ rest = pipe.drop n) := by
  have hq : ∀ e : ℚ, quantize emin emax e = specEncode emin emax e := by
    intro e
    simp only [quantize, specEncode, ratTrunc]
    by_cases h1 : e * (65535 / (emax - emin)) + (1/2 - emin * (65535 / (emax - emin))) ≤ 0
    · rw [if_pos h1, if_pos h1]
    · rw [if_neg h1, if_neg h1]
      by_cases h2 : (65535:ℚ) ≤
          e * (65535 / (emax - emin)) + (1/2 - emin * (65535 / (emax - emin)))
      · rw [if_pos h2, if_pos h2]
      · rw [if_neg h2, if_neg h2, if_neg (not_lt.mpr (le_of_lt (not_le.mp h1)))]
  have hdq : ∀ k : ℕ, dequantize emin emax k = specDecode emin emax k := by
    intro k
    simp only [dequantize, specDecode]
    ring
  refine ⟨hq, hdq, ?_, ?_⟩
  · intro w h bathymetry waterLevel
    simp only [serverGridMessage, funext hq]
  · intro n pipe vals rest hread
    have hlen : n ≤ pipe.length := by
      by_contra hc
      push_neg at hc
      rw [readSamples_eq_none emin emax n pipe hc] at hread
      exact Option.noConfusion hread
    rw [readSamples_eq_some emin emax n pipe hlen] at hread
    simp only [Option.some.injEq, Prod.mk.injEq] at hread
    exact ⟨hread.1.symm.trans (by simp only [funext hdq]), hread.2.symm⟩

/-- C2: for every elevation within the connection range, decoding the encoded
code recovers the elevation up to one quantization step `(max-min)/65535`. -/
theorem quantize_dequantize_roundtrip (emin emax e : ℚ) (hr : emin < emax)
    (hel : emin ≤ e) (heu : e ≤ emax) :
    |dequantize emin emax (quantize emin emax e) - e| ≤ (emax - emin) / 65535 := by
  have hd : (0:ℚ) < emax - emin := by linarith
  simp only [quantize, dequantize]
  set s : ℚ := 65535 / (emax - emin) with hsdef
  have hs : (0:ℚ) < s := by rw [hsdef]; positivity
  have hsD : s * (emax - emin) = 65535 := by rw [hsdef]; field_simp
  set u : ℚ := (emax - emin) / 65535 with hudef
  have hupos : (0:ℚ) < u := by rw [hudef]; positivity
  have hsu : s * u = 1 := by rw [hsdef, hudef]; field_simp
  have hraw : e * s + (1/2 - emin * s) = (e - emin) * s + 1/2 := by ring
  rw [hraw]
  set v : ℚ := (e - emin) * s with hvdef
  have hv0 : 0 ≤ v := by
    rw [hvdef]; exact mul_nonneg (by linarith) hs.le
  have hvu : v * u = e - emin := by
    calc v * u = (e - emin) * (s * u) := by rw [hvdef]; ring
      _ = e - emin := by rw [hsu, mul_one]
  have hvmax : v ≤ 65535 := by
    rw [hvdef]
    calc (e - emin) * s ≤ (emax - emin) * s :=
          mul_le_mul_of_nonneg_right (by linarith) hs.le
      _ = 65535 := by rw [mul_comm]; exact hsD
  rw [if_neg (by linarith : ¬ (v + 1/2 ≤ 0))]
  by_cases h2 : (65535:ℚ) ≤ v + 1/2
  · rw [if_pos h2]
    have hcast : ((65535:ℕ):ℚ) = 65535 := by norm_num
    rw [hcast]
    have h65u : (65535:ℚ) * u = emax - emin := by rw [hudef]; field_simp
    rw [abs_le]
    constructor
    · linarith [h65u, heu, hupos]
    · nlinarith [hvu, h65u, hupos,
        mul_le_mul_of_nonneg_right (show (65535:ℚ) - v ≤ 1/2 by linarith) hupos.le]
  · rw [if_neg h2]
    have hf0 : (0:ℤ) ≤ ⌊v + 1/2⌋ := Int.floor_nonneg.mpr (by linarith)
    have hcast : (((⌊v + 1/2⌋).toNat : ℕ) : ℚ) = ((⌊v + 1/2⌋ : ℤ) : ℚ) := by
      exact_mod_cast congrArg (fun z : ℤ => (z : ℚ)) (Int.toNat_of_nonneg hf0)
    rw [hcast]
    set t : ℚ := ((⌊v + 1/2⌋ : ℤ) : ℚ) with htdef
    have ht1 : t ≤ v + 1/2 := by rw [htdef]; exact Int.floor_le _
    have ht2 : v + 1/2 < t + 1 := by rw [htdef]; exact Int.lt_floor_add_one _
    rw [abs_le]
    constructor
    · nlinarith [hvu, hupos,
        mul_le_mul_of_nonneg_right (show -(1/2:ℚ) ≤ t - v by linarith) hupos.le]
    · nlinarith [hvu, hupos,
        mul_le_mul_of_nonneg_right (show t - v ≤ (1/2:ℚ) by linarith) hupos.le]

/-- Witness for C1: part 4 instantiated on a one-code pipe. -/
theorem wire_codec_matches_spec_witness :
    [dequantize 0 1 7] = (([7] : List ℕ).take 1).map (specDecode 0 1) ∧
      ([] : List ℕ) = ([7] : List ℕ).drop 1 :=
  (wire_codec_matches_spec 0 1).2.2.2 1 [7] [dequantize 0 1 7] [] rfl

/-- Witness for C2 at range [0,1] and elevation 1/3. -/
theorem quantize_dequantize_roundtrip_witness :
    |dequantize 0 1 (quantize 0 1 (1/3)) - 1/3| ≤ (1 - 0) / 65535 :=
  quantize_dequantize_roundtrip 0 1 (1/3) (by norm_num) (by norm_num) (by norm_num)

/-- C4: one snapshot message is exactly `(w-1)*(h-1) + w*h` two-byte elevation
codes with no tag — surface-A (bathymetry) samples first in row-major order,
then surface-B (water level) samples in row-major order — and the client reads
exactly that many codes per message, in the same order: the first
`(w-1)*(h-1)` codes become the bathymetry grid, the next `w*h` the water grid,
and nothing further is consumed; with fewer codes available the read fails. -/
theorem snapshot_message_framing (w h : ℕ) (emin emax : ℚ)
    (bathymetry waterLevel : ℕ → ℕ → ℚ) :
    (serverGridMessage w h emin emax bathymetry waterLevel).length
        = (w - 1) * (h - 1) + w * h ∧
    (∀ pipe : List ℕ, (w - 1) * (h - 1) + w * h ≤ pipe.length →
      readGrids w h emin emax pipe =
        some ((pipe.take ((w - 1) * (h - 1))).map (dequantize emin emax),
          ((pipe.drop ((w - 1) * (h - 1))).take (w * h)).map (dequantize emin emax),
          pipe.drop ((w - 1) * (h - 1) + w * h))) ∧
    (∀ pipe : List ℕ, pipe.length < (w - 1) * (h - 1) + w * h →
      readGrids w h emin emax pipe = none) := by
  refine ⟨?_, ?_, ?_⟩
  · simp [serverGridMessage, rowMajor_length]
  · intro pipe hlen
    have h1 : (w - 1) * (h - 1) ≤ pipe.length := by omega
    have h2 : w * h ≤ (pipe.drop ((w - 1) * (h - 1))).length := by
      rw [List.length_drop]; omega
    simp only [readGrids, readSamples_eq_some emin emax _ _ h1,
      readSamples_eq_some emin emax _ _ h2, List.drop_drop]
  · intro pipe hlen
    by_cases h1 : pipe.length < (w - 1) * (h - 1)
    · simp [readGrids, readSamples_eq_none emin emax _ _ h1]
    · push_neg at h1
      have h2 : (pipe.drop ((w - 1) * (h - 1))).length < w * h := by
        rw [List.length_drop]; omega
      simp [readGrids, readSamples_eq_some emin emax _ _ h1,
        readSamples_eq_none emin emax _ _ h2]

/-- Witness for C4 on a 2×2 geometry: 1 bathymetry code, 4 water codes, one
code left over. -/
theorem snapshot_message_framing_witness :
    readGrids 2 2 0 1 [0, 1, 2, 3, 4, 5] =
      some ([dequantize 0 1 0],
        [dequantize 0 1 1, dequantize 0 1 2, dequantize 0 1 3, dequantize 0 1 4],
        [5]) := by
  have happ := (snapshot_message_framing 2 2 0 1 (fun _ _ => 0) (fun _ _ => 0)).2.1
    [0, 1, 2, 3, 4, 5] (by norm_num)
  simpa using happ

/-- C9 counterexample: on a 2×2 geometry with only one code available, the
read fails mid-message, yet the connection is NOT torn down — the pipe stays
open and the callback keeps the listener — contradicting the claim that a
mid-message decode error tears the connection down. -/
theorem client_decode_error_not_teardown :
    readGrids 2 2 0 1 [5] = none ∧
    ¬ ((serverMessageCallback 2 2 0 1 [5] ⟨none, true⟩).1.pipeOpen = false ∨
       (serverMessageCallback 2 2 0 1 [5] ⟨none, true⟩).2 = true) := by
  have hcb : serverMessageCallback 2 2 0 1 [5] ⟨none, true⟩ = (⟨none, true⟩, false) := rfl
  exact ⟨rfl, by rw [hcb]; simp⟩

/-- C9 amended: a decode error after the initial synchronous read is
swallowed: the partially read snapshot is discarded (nothing is published)
and the client state is untouched — the connection stays open, the listener
stays registered, and no teardown or resynchronization happens. -/
theorem client_decode_error_swallowed (w h : ℕ) (emin emax : ℚ) (pipe : List ℕ)
    (st : SandboxClientState) (hfail : readGrids w h emin emax pipe = none) :
    serverMessageCallback w h emin emax pipe st = (st, false) := by
  simp [serverMessageCallback, hfail]

/-- Witness for the amended C9 at a concrete failing read. -/
theorem client_decode_error_swallowed_witness :
    serverMessageCallback 2 2 0 1 [5] ⟨none, true⟩ = (⟨none, true⟩, false) :=
  client_decode_error_swallowed 2 2 0 1 [5] ⟨none, true⟩ rfl

/-- Helper: over a constant-height grid the bilinear patch degenerates — the
quadratic coefficient vanishes, the linear coefficient is `-gd.z`, and the
constant term is `hgt - gp0.z`. -/
theorem cellCoeffs_const (hgt : ℚ) (cp : ℤ × ℤ) (gp0 gd : Pt3) :
    cellCoeffs (fun _ _ => hgt) cp gp0 gd = (0, -gd.z, hgt - gp0.z) := by
  simp only [cellCoeffs, Prod.mk.injEq]
  refine ⟨by ring, by ring, by ring⟩

/-- Helper: a segment whose endpoints project to the same interior grid point
is never clipped; the parameter interval stays `[0,1]`. -/
theorem clipSegment_inside (w h : ℕ) (g0 g1 z0 z1 : ℚ) (gd : Pt3)
    (hx0 : 0 ≤ g0) (hx1 : g0 ≤ (w : ℚ) - 2)
    (hy0 : 0 ≤ g1) (hy1 : g1 ≤ (h : ℚ) - 2) :
    clipSegment w h ⟨g0, g1, z0⟩ ⟨g0, g1, z1⟩ gd = some (0, 1) := by
  simp [clipSegment, clipAxisLower, clipAxisUpper,
    not_lt.mpr hx0, not_lt.mpr hx1, not_lt.mpr hy0, not_lt.mpr hy1]

/-- Helper: for a vertically-projecting segment no cell boundary is crossed,
so the exit parameter is the remaining `l1` with exit axis `-1`. -/
theorem cellExit_vertical (g0 g1 z0 z1 : ℚ) (gd : Pt3) (cp : ℤ × ℤ) (l1 : ℚ) :
    cellExit ⟨g0, g1, z0⟩ ⟨g0, g1, z1⟩ gd cp l1 = (l1, -1) := by
  simp [cellExit, lt_irrefl]

/-- Helper: first loop iteration over a flat grid for a vertical segment from
one unit above to one unit below the plane: the linear solve returns 1/2. -/
theorem intersectLoop_flat_vertical (sq : ℚ → ℚ) (hgt g0 g1 gdx gdy : ℚ)
    (fuel : ℕ) (hfuel : 0 < fuel) (cp : ℤ × ℤ) :
    intersectLoop sq (fun _ _ => hgt) ⟨g0, g1, hgt + 1⟩ ⟨g0, g1, hgt - 1⟩
      ⟨gdx, gdy, -2⟩ 1 fuel cp 0 = 1/2 := by
  cases fuel with
  | zero => omega
  | succ n =>
    simp only [intersectLoop]
    rw [if_pos (by norm_num : (0:ℚ) < 1)]
    rw [cellExit_vertical]
    rw [cellCoeffs_const]
    have hsolve : solveCell sq 0 (1, (-1:ℤ)).1 (0, -Pt3.z ⟨gdx, gdy, -2⟩,
        hgt - Pt3.z ⟨g0, g1, hgt + 1⟩) = 1/2 := by
      norm_num [solveCell]
    rw [hsolve]
    norm_num

/-- C8: on a grid whose surface-A samples all equal a constant h, a vertical
segment through an interior grid location from elevation h+1 down to h-1
returns the parameter 1/2: the quadratic degenerates (a = 0) and the linear
equation -c/b places the crossing exactly mid-segment.  The hypotheses say
the shared (x,y) location lies inside the grid's valid cell range after the
grid-space conversion `p/cellSize - 0.5`. -/
theorem intersectLine_flat_vertical (sq : ℚ → ℚ) (w h : ℕ) (cs1 cs2 : ℚ)
    (hgt x0 y0 : ℚ)
    (hx0 : 0 ≤ x0 / cs1 - 1/2) (hx1 : x0 / cs1 - 1/2 ≤ (w : ℚ) - 2)
    (hy0 : 0 ≤ y0 / cs2 - 1/2) (hy1 : y0 / cs2 - 1/2 ≤ (h : ℚ) - 2) :
    intersectLine sq w h (cs1, cs2) (fun _ _ => hgt)
      ⟨x0, y0, hgt + 1⟩ ⟨x0, y0, hgt - 1⟩ = 1/2 := by
  have hclip := clipSegment_inside w h (x0 / cs1 - 1/2) (y0 / cs2 - 1/2)
    (hgt + 1) (hgt - 1)
    ⟨x0 / cs1 - 1/2 - (x0 / cs1 - 1/2), y0 / cs2 - 1/2 - (y0 / cs2 - 1/2),
      hgt - 1 - (hgt + 1)⟩ hx0 hx1 hy0 hy1
  have hgd : hgt - 1 - (hgt + 1) = (-2 : ℚ) := by ring
  simp only [intersectLine, hclip]
  rw [if_neg (by norm_num : ¬ ((0:ℚ) ≥ 1))]
  rw [hgd]
  exact intersectLoop_flat_vertical sq hgt _ _ _ _ (w + h + 2) (by omega) _

/-- Witness for C8: 3×3 grid of constant height 5, unit cells, segment above
the cell-interior point (1,1). -/
theorem intersectLine_flat_vertical_witness :
    intersectLine (fun _ => 0) 3 3 (1, 1) (fun _ _ => 5) ⟨1, 1, 6⟩ ⟨1, 1, 4⟩ = 1/2 := by
  have happ := intersectLine_flat_vertical (fun _ => 0) 3 3 1 1 5 1 1
    (by norm_num) (by norm_num) (by norm_num) (by norm_num)
  norm_num at happ
  convert happ using 2

/-- Helper: over a flat grid of height `hgt`, a unit-cell-interior horizontal
segment at elevation `zc` reaches the first per-cell solve with quadratic
coefficient 0 AND linear coefficient 0 (the division `-c/b` in the linear
branch is a division by zero whenever `zc ≠ hgt`). -/
theorem firstCellSetup_flat_horizontal (hgt zc : ℚ) :
    firstCellSetup 3 3 (1, 1) (fun _ _ => hgt) ⟨1, 1, zc⟩ ⟨2, 1, zc⟩ =
      some (0, 0, hgt - zc) := by
  have hclip : clipSegment 3 3 ⟨(1:ℚ)/1 - 1/2, (1:ℚ)/1 - 1/2, zc⟩
      ⟨(2:ℚ)/1 - 1/2, (1:ℚ)/1 - 1/2, zc⟩
      ⟨(2:ℚ)/1 - 1/2 - ((1:ℚ)/1 - 1/2), (1:ℚ)/1 - 1/2 - ((1:ℚ)/1 - 1/2), zc - zc⟩
      = some (0, 1/2) := by
    norm_num [clipSegment, clipAxisLower, clipAxisUpper]
  simp only [firstCellSetup, hclip]
  rw [if_neg (by norm_num : ¬ ((0:ℚ) ≥ 1/2))]
  rw [cellCoeffs_const]
  norm_num

/-- C10 counterexample: the claim "whenever the per-cell solve is reached
with a = 0 the linear coefficient b is nonzero" is false: for the flat grid
of height 0 and the horizontal unit segment at elevation 1 the solve is
reached with a = 0 and b = 0 (the coefficients are (0, 0, -1)). -/
theorem linear_branch_divisor_counterexample :
    ¬ (∀ abc : ℚ × ℚ × ℚ,
        firstCellSetup 3 3 (1, 1) (fun _ _ => 0) ⟨1, 1, 1⟩ ⟨2, 1, 1⟩ = some abc →
        abc.1 = 0 → abc.2.1 ≠ 0) := by
  intro hcl
  have hsetup := firstCellSetup_flat_horizontal 0 1
  norm_num at hsetup
  exact hcl (0, 0, -1) hsetup rfl rfl

/-- C10 amended: reaching the per-cell solve with a = 0 does not ensure
b ≠ 0 — for every flat grid height and every horizontal interior segment
elevation, the solve is reached with a = 0 and b = 0, so the linear branch's
division `-c/b` divides by zero (IEEE arithmetic yields a non-finite value
there, which then fails the `il ∈ [cl0, cl1)` acceptance test). -/
theorem linear_branch_divisor_can_vanish (hgt zc : ℚ) :
    firstCellSetup 3 3 (1, 1) (fun _ _ => hgt) ⟨1, 1, zc⟩ ⟨2, 1, zc⟩ =
      some (0, 0, hgt - zc) :=
  firstCellSetup_flat_horizontal hgt zc

/-! ### List counting lemmas for the swap-with-back removal -/

/-- Helper: `getLastD` of a nonempty list ignores the default. -/
theorem getLastD_indep (l : List Client) (hne : l ≠ []) (d₁ d₂ : Client) :
    l.getLastD d₁ = l.getLastD d₂ := by
  cases l with
  | nil => exact absurd rfl hne
  | cons a t => simp only [List.getLastD_cons]

/-- Helper: countP after a `set` at a valid index. -/
theorem countP_set_eq (p : Client → Bool) :
    ∀ (l : List Client) (i : ℕ) (x : Client), ∀ hi : i < l.length,
      (l.set i x).countP p + (if p (l.get ⟨i, hi⟩) then 1 else 0)
        = l.countP p + (if p x then 1 else 0) := by
  intro l
  induction l with
  | nil => intro i x hi; simp at hi
  | cons a t ih =>
    intro i x hi
    cases i with
    | zero =>
      simp only [List.set_cons_zero, List.countP_cons, List.get_eq_getElem,
        List.getElem_cons_zero]
      omega
    | succ j =>
      have hj : j < t.length := by simpa using hi
      simp only [List.set_cons_succ, List.countP_cons, List.get_eq_getElem,
        List.getElem_cons_succ]
      have hrec := ih j x hj
      simp only [List.get_eq_getElem] at hrec
      omega

/-- Helper: countP splits off the last element of a nonempty list. -/
theorem countP_dropLast (p : Client → Bool) (l : List Client) (hne : l ≠ []) (d : Client) :
    l.dropLast.countP p + (if p (l.getLastD d) then 1 else 0) = l.countP p := by
  conv_rhs => rw [← List.dropLast_concat_getLast hne]
  rw [List.countP_append, List.countP_singleton]
  rw [List.getLastD_eq_getLast?, List.getLast?_eq_getLast l hne, Option.getD_some]

/-- Helper: overwriting any valid index with the last element keeps the last
element of the list. -/
theorem getLastD_set_getLastD (l : List Client) (i : ℕ) (hi : i < l.length) (d : Client) :
    (l.set i (l.getLastD d)).getLastD d = l.getLastD d := by
  have hne : l ≠ [] := List.ne_nil_of_length_pos (Nat.lt_of_le_of_lt (Nat.zero_le i) hi)
  rw [List.getLastD_eq_getLast?, List.getLastD_eq_getLast?,
    List.getLast?_eq_getElem?, List.getLast?_eq_getElem?, List.length_set]
  by_cases hlast : i = l.length - 1
  · subst hlast
    rw [List.getElem?_set_self (by omega)]
    simp only [Option.getD_some]
  · rw [List.getElem?_set_ne hlast]

/-- Helper: the count identity for `removeSwapBack`: one occurrence of the
element at the removed index disappears, everything else is preserved. -/
theorem countP_removeSwapBack (p : Client → Bool) (l : List Client) (i : ℕ)
    (hi : i < l.length) :
    (removeSwapBack i l).countP p + (if p (l.get ⟨i, hi⟩) then 1 else 0)
      = l.countP p := by
  have hne : l ≠ [] := List.ne_nil_of_length_pos (Nat.lt_of_le_of_lt (Nat.zero_le i) hi)
  have hmne : l.set i (l.getLastD blankClient) ≠ [] := by
    apply List.ne_nil_of_length_pos
    rw [List.length_set]
    omega
  have h1 := countP_dropLast p (l.set i (l.getLastD blankClient)) hmne blankClient
  rw [getLastD_set_getLastD l i hi blankClient] at h1
  have h2 := countP_set_eq p l i (l.getLastD blankClient) hi
  unfold removeSwapBack
  omega

/-- Helper: `removeSwapBack` only keeps elements of the original list. -/
theorem mem_of_mem_removeSwapBack (l : List Client) (i : ℕ) (c : Client)
    (hc : c ∈ removeSwapBack i l) : c ∈ l := by
  unfold removeSwapBack at hc
  have hc2 := List.dropLast_subset _ hc
  rcases List.mem_or_eq_of_mem_set hc2 with hmem | heq
  · exact hmem
  · subst heq
    rcases l with _ | ⟨a, t⟩
    · simp at hc
    · rw [List.getLastD_cons]
      exact List.getLastD_mem_cons t a

/-- Helper: at most one list element satisfies `p` when `countP p ≤ 1`. -/
theorem countP_le_one_unique (p : Client → Bool) (l : List Client)
    (hcnt : l.countP p ≤ 1) (a : Client) (ha : a ∈ l) (b : Client) (hb : b ∈ l)
    (hpa : p a) (hpb : p b) : a = b := by
  induction l with
  | nil => simp at ha
  | cons c t ih =>
    rw [List.countP_cons] at hcnt
    rcases List.mem_cons.mp ha with rfl | hat
    · rcases List.mem_cons.mp hb with rfl | hbt
      · rfl
      · exfalso
        have hz : t.countP p = 0 := by
          rw [if_pos hpa] at hcnt; omega
        exact (List.countP_eq_zero.mp hz b hbt) hpb
    · rcases List.mem_cons.mp hb with rfl | hbt
      · exfalso
        have hz : t.countP p = 0 := by
          rw [if_pos hpb] at hcnt; omega
        exact (List.countP_eq_zero.mp hz a hat) hpa
      · exact ih (by omega) hat hbt

/-- Helper: unique-id lists are pairwise id-distinct. -/
theorem keysOk_pairwise (l : List Client)
    (hkeys : ∀ k : ℕ, l.countP (fun c => c.cid == k) ≤ 1) :
    l.Pairwise (fun a b => a.cid ≠ b.cid) := by
  induction l with
  | nil => exact List.Pairwise.nil
  | cons c t ih =>
    refine List.pairwise_cons.mpr ⟨?_, ?_⟩
    · intro b hb heq
      have hcnt := hkeys c.cid
      rw [List.countP_cons, if_pos (by simp)] at hcnt
      have hz : t.countP (fun x => x.cid == c.cid) = 0 := by omega
      exact (List.countP_eq_zero.mp hz b hb) (by simp [heq])
    · refine ih (fun k => ?_)
      have hcnt := hkeys k
      rw [List.countP_cons] at hcnt
      omega

/-- Helper: a successful `findClientIdx` returns a valid index holding the
searched id. -/
theorem findClientIdx_some (k : ℕ) (l : List Client) (i : ℕ)
    (hf : findClientIdx k l = some i) :
    ∃ hi : i < l.length, (l.get ⟨i, hi⟩).cid = k := by
  unfold findClientIdx at hf
  rw [List.findIdx?_eq_some_iff_getElem] at hf
  obtain ⟨hi, hp, _⟩ := hf
  exact ⟨hi, by simpa using hp⟩

/-- Helper: a client present in the list is found by its id. -/
theorem findClientIdx_isSome_of_mem (k : ℕ) (l : List Client) (c : Client)
    (hc : c ∈ l) (hk : c.cid = k) : ∃ i, findClientIdx k l = some i := by
  unfold findClientIdx
  cases hfind : l.findIdx? (fun c => c.cid == k) with
  | some i => exact ⟨i, rfl⟩
  | none =>
    rw [List.findIdx?_eq_none_iff] at hfind
    have hc2 := hfind c hc
    simp [hk] at hc2

/-- Helper: a successful endianness check keeps the client's identity and
pose and moves it to streaming. -/
theorem startTransition_some (token : ℕ) (c c' : Client)
    (h : startTransition token c = some c') :
    c'.cid = c.cid ∧ c'.state = ClientState.streaming := by
  unfold startTransition at h
  split_ifs at h with h1 h2
  · cases h; exact ⟨rfl, rfl⟩
  · cases h; exact ⟨rfl, rfl⟩

/-- Helper: disconnecting any client preserves the invariant. -/
theorem inv_disconnect (rm : Bool) (k : ℕ) (st : ServerState) (hinv : Inv st) :
    Inv (disconnectClient rm k st) := by
  obtain ⟨hkeys, hbound, hcount⟩ := hinv
  cases hf : findClientIdx k st.clients with
  | none => simp only [disconnectClient, hf]; exact ⟨hkeys, hbound, hcount⟩
  | some i =>
    obtain ⟨hi, hcid⟩ := findClientIdx_some k st.clients i hf
    simp only [disconnectClient, hf, List.getElem?_eq_getElem hi]
    refine ⟨?_, ?_, ?_⟩
    · intro k2
      dsimp only
      have h := countP_removeSwapBack (fun c => c.cid == k2) st.clients i hi
      have hk := hkeys k2
      omega
    · intro c hc
      dsimp only at hc ⊢
      exact hbound c (mem_of_mem_removeSwapBack st.clients i c hc)
    · dsimp only
      have h := countP_removeSwapBack (fun c => c.state == ClientState.streaming)
        st.clients i hi
      simp only [streamingCount] at hcount ⊢
      simp only [List.get_eq_getElem] at h
      by_cases hstream : st.clients[i].state = ClientState.streaming
      · rw [if_pos hstream]
        rw [if_pos (by simp [hstream])] at h
        omega
      · rw [if_neg hstream]
        rw [if_neg (by simp [hstream])] at h
        omega

/-- Helper: accepting a connection preserves the invariant. -/
theorem inv_accept (ok : Bool) (st : ServerState) (hinv : Inv st) :
    Inv (newConnectionCallback ok st) := by
  obtain ⟨hkeys, hbound, hcount⟩ := hinv
  cases ok with
  | false => simpa only [newConnectionCallback, if_neg] using ⟨hkeys, hbound, hcount⟩
  | true =>
    simp only [newConnectionCallback, if_pos]
    refine ⟨?_, ?_, ?_⟩
    · intro k
      rw [List.countP_append, List.countP_singleton]
      have hk := hkeys k
      by_cases hid : ({ blankClient with cid := st.nextId } : Client).cid == k
      · have hz : st.clients.countP (fun c => c.cid == k) = 0 := by
          rw [List.countP_eq_zero]
          intro c hc hck
          have hlt := hbound c hc
          simp only [blankClient] at hid
          simp only [beq_iff_eq] at hck hid
          omega
        rw [if_pos hid]
        omega
      · rw [if_neg hid]
        omega
    · intro c hc
      rcases List.mem_append.mp hc with hmem | hmem
      · exact Nat.lt_succ_of_lt (hbound c hmem)
      · rw [List.mem_singleton] at hmem
        subst hmem
        exact Nat.lt_succ_self _
    · simp only [streamingCount, List.countP_append, List.countP_singleton]
      rw [if_neg (by simp [blankClient])]
      simpa using hcount

/-- Helper: every client-message outcome preserves the invariant. -/
theorem inv_message (k : ℕ) (inp : Option ClientInput) (st : ServerState)
    (hinv : Inv st) : Inv (clientMessageCallback k inp st).1 := by
  obtain ⟨hkeys, hbound, hcount⟩ := hinv
  cases hf : findClientIdx k st.clients with
  | none => simp only [clientMessageCallback, hf]; exact ⟨hkeys, hbound, hcount⟩
  | some i =>
    obtain ⟨hi, hcid⟩ := findClientIdx_some k st.clients i hf
    simp only [clientMessageCallback, hf, List.getElem?_eq_getElem hi]
    cases inp with
    | none =>
      dsimp only
      exact inv_disconnect false k st ⟨hkeys, hbound, hcount⟩
    | some inp =>
      dsimp only
      cases hcs : st.clients[i].state with
      | start =>
        dsimp only
        cases hst : startTransition inp.token st.clients[i] with
        | none =>
          dsimp only
          exact inv_disconnect false k st ⟨hkeys, hbound, hcount⟩
        | some c' =>
          dsimp only
          obtain ⟨hcid2, hcs2⟩ := startTransition_some inp.token _ c' hst
          refine ⟨?_, ?_, ?_⟩
          · intro k2
            dsimp only
            have h := countP_set_eq (fun c => c.cid == k2) st.clients i c' hi
            simp only [List.get_eq_getElem, hcid2] at h
            have hk := hkeys k2
            omega
          · intro c hc
            dsimp only at hc ⊢
            rcases List.mem_or_eq_of_mem_set hc with hmem | heq
            · exact hbound c hmem
            · subst heq
              rw [hcid2]
              exact hbound _ (List.getElem_mem hi)
          · dsimp only
            simp only [streamingCount] at hcount ⊢
            have h := countP_set_eq (fun c => c.state == ClientState.streaming)
              st.clients i c' hi
            simp only [List.get_eq_getElem] at h
            rw [if_neg (by simp [hcs]), if_pos (by simp [hcs2])] at h
            omega
      | streaming =>
        dsimp only
        by_cases htag : inp.tag = 0
        · rw [if_pos htag]
          refine ⟨?_, ?_, ?_⟩
          · intro k2
            dsimp only
            have h := countP_set_eq (fun c => c.cid == k2) st.clients i
              ⟨st.clients[i].cid, ClientState.streaming, st.clients[i].swapOnRead,
                inp.pos, inp.dir⟩ hi
            simp only [List.get_eq_getElem] at h
            have hk := hkeys k2
            omega
          · intro c hc
            dsimp only at hc ⊢
            rcases List.mem_or_eq_of_mem_set hc with hmem | heq
            · exact hbound c hmem
            · subst heq
              dsimp only
              exact hbound _ (List.getElem_mem hi)
          · dsimp only
            simp only [streamingCount] at hcount ⊢
            have h := countP_set_eq (fun c => c.state == ClientState.streaming)
              st.clients i
              ⟨st.clients[i].cid, ClientState.streaming, st.clients[i].swapOnRead,
                inp.pos, inp.dir⟩ hi
            simp only [List.get_eq_getElem] at h
            rw [if_pos (by simp [hcs]), if_pos (by simp)] at h
            omega
        · rw [if_neg htag]
          dsimp only
          exact inv_disconnect false k st ⟨hkeys, hbound, hcount⟩

/-- Helper: a fold of disconnects preserves the invariant. -/
theorem inv_foldl_disconnect (dead : List Client) :
    ∀ st : ServerState, Inv st →
      Inv (dead.foldl (fun s c => disconnectClient true c.cid s) st) := by
  induction dead with
  | nil => intro st hinv; simpa using hinv
  | cons c rest ih =>
    intro st hinv
    simp only [List.foldl_cons]
    exact ih _ (inv_disconnect true c.cid st hinv)

/-- Helper: every reachable server state satisfies the invariant. -/
theorem reachable_inv (st : ServerState) (hst : Reachable st) : Inv st := by
  induction hst with
  | init => exact ⟨by simp, by simp, by simp [streamingCount]⟩
  | accept ok hst ih => exact inv_accept ok _ ih
  | message k inp hst ih => exact inv_message k inp _ ih
  | broadcast w h emin emax bathymetry waterLevel fails hst ih =>
    exact inv_foldl_disconnect _ _ ih

/-- C7: in every reachable server state, the active-stream counter
`numClients` equals the number of clients in the list whose state is
streaming — it is incremented exactly on the endianness check that enters
streaming, decremented by a disconnect iff that client had reached streaming,
and untouched by every other operation (all of which are steps of
`Reachable`). -/
theorem numClients_tracks_streaming (st : ServerState) (hst : Reachable st) :
    st.numClients = streamingCount st.clients :=
  (reachable_inv st hst).2.2

/-- Witness for C7 at the state reached by one accept and one successful
handshake. -/
theorem numClients_tracks_streaming_witness :
    ((clientMessageCallback 0 (some ⟨0x12345678, 0, (0, 0, 0), (0, 0, 0)⟩)
        (newConnectionCallback true ⟨[], 0, 0⟩)).1).numClients
      = streamingCount ((clientMessageCallback 0
          (some ⟨0x12345678, 0, (0, 0, 0), (0, 0, 0)⟩)
          (newConnectionCallback true ⟨[], 0, 0⟩)).1).clients :=
  numClients_tracks_streaming _
    (Reachable.message 0 _ (Reachable.accept true Reachable.init))

/-- C3: in the START state, reading the magic verbatim (0x12345678) leaves
byte-swap untouched (it stays disabled for a fresh pipe) and moves the session
to streaming; reading it byte-reversed (0x78563412) enables swap-on-read and
moves the session to streaming; any other 4-byte value closes the connection:
the session is removed from the list, the callback returns true (dropping the
listener), and the active-stream counter is unchanged. -/
theorem handshake_transition (st : ServerState) (k i : ℕ) (c : Client)
    (inp : ClientInput)
    (hf : findClientIdx k st.clients = some i)
    (hget : st.clients[i]? = some c)
    (hstart : c.state = ClientState.start) :
    (inp.token = 0x12345678 →
      clientMessageCallback k (some inp) st =
        ({ st with
            clients := st.clients.set i { c with state := ClientState.streaming }
            numClients := st.numClients + 1 }, false)) ∧
    (inp.token = 0x78563412 →
      clientMessageCallback k (some inp) st =
        ({ st with
            clients := st.clients.set i
              { c with swapOnRead := true, state := ClientState.streaming }
            numClients := st.numClients + 1 }, false)) ∧
    (inp.token ≠ 0x12345678 → inp.token ≠ 0x78563412 →
      (clientMessageCallback k (some inp) st).2 = true ∧
      (clientMessageCallback k (some inp) st).1.numClients = st.numClients ∧
      (clientMessageCallback k (some inp) st).1.clients.count c + 1
        = st.clients.count c) := by
  obtain ⟨hi, hceq⟩ := List.getElem?_eq_some_iff.mp hget
  refine ⟨?_, ?_, ?_⟩
  · intro h12
    have hsome : startTransition inp.token c
        = some { c with state := ClientState.streaming } := by
      unfold startTransition
      rw [h12]
      rw [if_neg (by norm_num), if_neg (by norm_num)]
    simp only [clientMessageCallback, hf, hget, hstart, hsome]
  · intro h78
    have hsome : startTransition inp.token c
        = some { c with swapOnRead := true, state := ClientState.streaming } := by
      unfold startTransition
      rw [h78]
      rw [if_pos rfl]
    simp only [clientMessageCallback, hf, hget, hstart, hsome]
  · intro h12 h78
    have hnone : startTransition inp.token c = none := by
      unfold startTransition
      rw [if_neg h78, if_pos h12]
    have hcb : clientMessageCallback k (some inp) st
        = (disconnectClient false k st, true) := by
      simp only [clientMessageCallback, hf, hget, hstart, hnone]
    have hdc : disconnectClient false k st
        = { st with
              clients := removeSwapBack i st.clients
              numClients := st.numClients
                - (if c.state = ClientState.streaming then 1 else 0) } := by
      simp only [disconnectClient, hf, hget]
    rw [hcb, hdc]
    refine ⟨rfl, ?_, ?_⟩
    · simp [hstart]
    · dsimp only
      have h := countP_removeSwapBack (fun x => x == c) st.clients i hi
      rw [List.count_eq_countP, List.count_eq_countP]
      simp only [List.get_eq_getElem, hceq] at h
      rw [if_pos (by simp)] at h
      omega

/-- Witness for C3, bad-token branch: one START client, token 5. -/
theorem handshake_transition_witness :
    (clientMessageCallback 0 (some ⟨5, 0, (0, 0, 0), (0, 0, 0)⟩)
        ⟨[⟨0, ClientState.start, false, (0, 0, 0), (0, 0, 0)⟩], 0, 1⟩).2 = true ∧
    (clientMessageCallback 0 (some ⟨5, 0, (0, 0, 0), (0, 0, 0)⟩)
        ⟨[⟨0, ClientState.start, false, (0, 0, 0), (0, 0, 0)⟩], 0, 1⟩).1.numClients
      = (⟨[⟨0, ClientState.start, false, (0, 0, 0), (0, 0, 0)⟩], 0, 1⟩
          : ServerState).numClients ∧
    (clientMessageCallback 0 (some ⟨5, 0, (0, 0, 0), (0, 0, 0)⟩)
        ⟨[⟨0, ClientState.start, false, (0, 0, 0), (0, 0, 0)⟩], 0, 1⟩).1.clients.count
        ⟨0, ClientState.start, false, (0, 0, 0), (0, 0, 0)⟩ + 1
      = (⟨[⟨0, ClientState.start, false, (0, 0, 0), (0, 0, 0)⟩], 0, 1⟩
          : ServerState).clients.count
          ⟨0, ClientState.start, false, (0, 0, 0), (0, 0, 0)⟩ :=
  (handshake_transition ⟨[⟨0, ClientState.start, false, (0, 0, 0), (0, 0, 0)⟩], 0, 1⟩ 0 0
    ⟨0, ClientState.start, false, (0, 0, 0), (0, 0, 0)⟩ ⟨5, 0, (0, 0, 0), (0, 0, 0)⟩
    rfl rfl rfl).2.2 (by norm_num) (by norm_num)

/-- C5: in the streaming state, tag 0 is a pose update — the payload's three
position floats and three direction floats replace the session's stored pose
and the session stays registered; any other tag is fatal for that session
only: it is removed from the client list, the counter drops by one, and the
callback returns true so the dispatcher deregisters its listener. -/
theorem streaming_message_handling (st : ServerState) (k i : ℕ) (c : Client)
    (inp : ClientInput)
    (hf : findClientIdx k st.clients = some i)
    (hget : st.clients[i]? = some c)
    (hstream : c.state = ClientState.streaming) :
    (inp.tag = 0 →
      clientMessageCallback k (some inp) st =
        ({ st with clients := st.clients.set i { c with position := inp.pos, direction := inp.dir } }, false)) ∧
    (inp.tag ≠ 0 →
      (clientMessageCallback k (some inp) st).2 = true ∧
      (clientMessageCallback k (some inp) st).1.numClients = st.numClients - 1 ∧
      (clientMessageCallback k (some inp) st).1.clients.count c + 1
        = st.clients.count c) := by
  obtain ⟨hi, hceq⟩ := List.getElem?_eq_some_iff.mp hget
  refine ⟨?_, ?_⟩
  · intro htag
    simp only [clientMessageCallback, hf, hget, hstream, if_pos htag]
  · intro htag
    have hcb : clientMessageCallback k (some inp) st
        = (disconnectClient false k st, true) := by
      simp only [clientMessageCallback, hf, hget, hstream, if_neg htag]
    have hdc : disconnectClient false k st
        = { st with
              clients := removeSwapBack i st.clients
              numClients := st.numClients
                - (if c.state = ClientState.streaming then 1 else 0) } := by
      simp only [disconnectClient, hf, hget]
    rw [hcb, hdc]
    refine ⟨rfl, ?_, ?_⟩
    · simp [hstream]
    · dsimp only
      have h := countP_removeSwapBack (fun x => x == c) st.clients i hi
      rw [List.count_eq_countP, List.count_eq_countP]
      simp only [List.get_eq_getElem, hceq] at h
      rw [if_pos (by simp)] at h
      omega

/-- Witness for C5, bad-tag branch: one streaming client, tag 7. -/
theorem streaming_message_handling_witness :
    (clientMessageCallback 0 (some ⟨0, 7, (0, 0, 0), (0, 0, 0)⟩)
        ⟨[⟨0, ClientState.streaming, false, (0, 0, 0), (0, 0, 0)⟩], 1, 1⟩).2 = true ∧
    (clientMessageCallback 0 (some ⟨0, 7, (0, 0, 0), (0, 0, 0)⟩)
        ⟨[⟨0, ClientState.streaming, false, (0, 0, 0), (0, 0, 0)⟩], 1, 1⟩).1.numClients
      = (⟨[⟨0, ClientState.streaming, false, (0, 0, 0), (0, 0, 0)⟩], 1, 1⟩
          : ServerState).numClients - 1 ∧
    (clientMessageCallback 0 (some ⟨0, 7, (0, 0, 0), (0, 0, 0)⟩)
        ⟨[⟨0, ClientState.streaming, false, (0, 0, 0), (0, 0, 0)⟩], 1, 1⟩).1.clients.count
        ⟨0, ClientState.streaming, false, (0, 0, 0), (0, 0, 0)⟩ + 1
      = (⟨[⟨0, ClientState.streaming, false, (0, 0, 0), (0, 0, 0)⟩], 1, 1⟩
          : ServerState).clients.count
          ⟨0, ClientState.streaming, false, (0, 0, 0), (0, 0, 0)⟩ :=
  (streaming_message_handling ⟨[⟨0, ClientState.streaming, false, (0, 0, 0), (0, 0, 0)⟩], 1, 1⟩ 0 0
    ⟨0, ClientState.streaming, false, (0, 0, 0), (0, 0, 0)⟩ ⟨0, 7, (0, 0, 0), (0, 0, 0)⟩
    rfl rfl rfl).2 (by norm_num)

/-- Helper: the broadcast pass delivers to exactly the streaming clients
whose writes succeed and collects exactly the streaming clients whose writes
fail, in list order — one client's failure cannot affect another's delivery. -/
theorem broadcastPass_spec (msg : List ℕ) (fails : ℕ → Bool) (l : List Client) :
    (broadcastPass msg fails l).1
        = (l.filter (fun c => c.state == ClientState.streaming && !fails c.cid)).map
            (fun c => (c.cid, msg)) ∧
    (broadcastPass msg fails l).2
        = l.filter (fun c => c.state == ClientState.streaming && fails c.cid) := by
  induction l with
  | nil => simp [broadcastPass]
  | cons c rest ih =>
    obtain ⟨ih1, ih2⟩ := ih
    by_cases hs : c.state = ClientState.streaming
    · by_cases hfail : fails c.cid
      · simp [broadcastPass, hs, hfail, List.filter_cons, ih1, ih2]
      · simp [broadcastPass, hs, hfail, List.filter_cons, ih1, ih2]
    · simp [broadcastPass, hs, List.filter_cons, ih1, ih2]

/-- Helper: a disconnect never increases any countP over the client list. -/
theorem disconnect_countP_le (rm : Bool) (k : ℕ) (st : ServerState) (p : Client → Bool) :
    (disconnectClient rm k st).clients.countP p ≤ st.clients.countP p := by
  cases hf : findClientIdx k st.clients with
  | none => simp [disconnectClient, hf]
  | some i =>
    obtain ⟨hi, _⟩ := findClientIdx_some k st.clients i hf
    simp only [disconnectClient, hf, List.getElem?_eq_getElem hi]
    have h := countP_removeSwapBack p st.clients i hi
    omega

/-- Helper: with unique ids, disconnecting a present client removes exactly
that one record. -/
theorem disconnect_count_of_mem (rm : Bool) (c : Client) (st : ServerState)
    (hkeys : ∀ k : ℕ, st.clients.countP (fun x => x.cid == k) ≤ 1)
    (hmem : c ∈ st.clients) :
    ∀ d : Client, (disconnectClient rm c.cid st).clients.count d
      = st.clients.count d - (if d = c then 1 else 0) := by
  obtain ⟨i, hf⟩ := findClientIdx_isSome_of_mem c.cid st.clients c hmem rfl
  obtain ⟨hi, hcid⟩ := findClientIdx_some c.cid st.clients i hf
  have hieq : st.clients[i] = c := by
    have hgm : st.clients[i] ∈ st.clients := List.getElem_mem hi
    refine countP_le_one_unique (fun x => x.cid == c.cid) st.clients (hkeys c.cid)
      _ hgm c hmem ?_ (by simp)
    simp only [List.get_eq_getElem] at hcid
    simp [hcid]
  intro d
  simp only [disconnectClient, hf, List.getElem?_eq_getElem hi]
  have h := countP_removeSwapBack (fun x => x == d) st.clients i hi
  simp only [List.get_eq_getElem, hieq] at h
  rw [List.count_eq_countP, List.count_eq_countP]
  by_cases hdc : d = c
  · subst hdc
    rw [if_pos rfl]
    rw [if_pos (by simp)] at h
    omega
  · rw [if_neg hdc]
    rw [if_neg (by simp only [beq_iff_eq]; exact fun hcon => hdc hcon.symm)] at h
    omega

/-- Helper: folding disconnects over a pairwise-id-distinct list of present
clients removes exactly those clients. -/
theorem foldl_disconnect_count (dead : List Client) :
    ∀ st : ServerState,
      (∀ k : ℕ, st.clients.countP (fun x => x.cid == k) ≤ 1) →
      (∀ c ∈ dead, c ∈ st.clients) →
      dead.Pairwise (fun a b => a.cid ≠ b.cid) →
      ∀ d : Client,
        (dead.foldl (fun s c => disconnectClient true c.cid s) st).clients.count d
          = if d ∈ dead then 0 else st.clients.count d := by
  induction dead with
  | nil => intro st _ _ _ d; simp
  | cons c0 rest ih =>
    intro st hkeys hsub hpw d
    simp only [List.foldl_cons]
    have hc0mem : c0 ∈ st.clients := hsub c0 (List.mem_cons_self _ _)
    have hcount := disconnect_count_of_mem true c0 st hkeys hc0mem
    have hkeys1 : ∀ k : ℕ,
        (disconnectClient true c0.cid st).clients.countP (fun x => x.cid == k) ≤ 1 := by
      intro k
      exact le_trans (disconnect_countP_le true c0.cid st _) (hkeys k)
    have hpwc := List.pairwise_cons.mp hpw
    have hsub1 : ∀ c ∈ rest, c ∈ (disconnectClient true c0.cid st).clients := by
      intro c hc
      have hne : c ≠ c0 := by
        intro he
        exact hpwc.1 c hc (by rw [he])
      have hcnt := hcount c
      rw [if_neg hne] at hcnt
      have hcpos : 0 < st.clients.count c :=
        List.count_pos_iff.mpr (hsub c (List.mem_cons_of_mem _ hc))
      exact List.count_pos_iff.mp (by omega)
    rw [ih _ hkeys1 hsub1 hpwc.2 d]
    by_cases hd : d ∈ rest
    · rw [if_pos hd, if_pos (List.mem_cons_of_mem _ hd)]
    · rw [if_neg hd]
      by_cases hdc : d = c0
      · subst hdc
        rw [if_pos (List.mem_cons_self _ _)]
        have h1 : st.clients.count d ≤ 1 := by
          calc st.clients.count d = st.clients.countP (fun x => x == d) :=
                List.count_eq_countP _ _
            _ ≤ st.clients.countP (fun x => x.cid == d.cid) := by
                refine List.countP_mono_left ?_
                intro x hx hbx
                simp only [beq_iff_eq] at hbx
                simp [hbx]
            _ ≤ 1 := hkeys d.cid
        have hcnt := hcount d
        rw [if_pos rfl] at hcnt
        omega
      · rw [if_neg (by simp [List.mem_cons, hd, hdc])]
        have hcnt := hcount d
        rw [if_neg hdc] at hcnt
        have hle := disconnect_countP_le true c0.cid st (fun x => x == d)
        rw [← List.count_eq_countP, ← List.count_eq_countP] at hle
        omega

/-- C6: during one broadcast pass over a unique-id session set, the complete
snapshot message is delivered to every streaming session whose own write
succeeds (a failure elsewhere cannot prevent it), and after the pass exactly
the streaming sessions whose writes failed have been disconnected and
removed: a client record is in the final list iff it was there before and is
not a failed streaming session — in particular survivors keep their record,
streaming state included. -/
theorem broadcast_isolation (w h : ℕ) (emin emax : ℚ)
    (bathymetry waterLevel : ℕ → ℕ → ℚ) (fails : ℕ → Bool) (st : ServerState)
    (hkeys : ∀ k : ℕ, st.clients.countP (fun x => x.cid == k) ≤ 1) :
    (∀ c ∈ st.clients, c.state = ClientState.streaming → fails c.cid = false →
      (c.cid, serverGridMessage w h emin emax bathymetry waterLevel)
        ∈ (communicationBroadcast w h emin emax bathymetry waterLevel fails st).2) ∧
    (∀ c : Client,
      c ∈ (communicationBroadcast w h emin emax bathymetry waterLevel fails st).1.clients
        ↔ c ∈ st.clients ∧ ¬(c.state = ClientState.streaming ∧ fails c.cid = true)) := by
  obtain ⟨hdel, hdead⟩ :=
    broadcastPass_spec (serverGridMessage w h emin emax bathymetry waterLevel) fails
      st.clients
  constructor
  · intro c hc hs hf2
    unfold communicationBroadcast
    dsimp only
    rw [hdel]
    exact List.mem_map.mpr ⟨c, List.mem_filter.mpr ⟨hc, by simp [hs, hf2]⟩, rfl⟩
  · intro c
    unfold communicationBroadcast
    dsimp only
    have hsubdead : ∀ x ∈ (broadcastPass
        (serverGridMessage w h emin emax bathymetry waterLevel) fails st.clients).2,
        x ∈ st.clients := by
      rw [hdead]
      exact fun x hx => (List.mem_filter.mp hx).1
    have hpwdead : (broadcastPass
        (serverGridMessage w h emin emax bathymetry waterLevel) fails
        st.clients).2.Pairwise (fun a b => a.cid ≠ b.cid) := by
      rw [hdead]
      exact (keysOk_pairwise st.clients hkeys).sublist (List.filter_sublist _)
    have hcnt := foldl_disconnect_count _ st hkeys hsubdead hpwdead c
    constructor
    · intro hcmem
      have hpos : 0 < List.count c _ := List.count_pos_iff.mpr hcmem
      rw [hcnt] at hpos
      by_cases hdc : c ∈ (broadcastPass
          (serverGridMessage w h emin emax bathymetry waterLevel) fails st.clients).2
      · rw [if_pos hdc] at hpos
        omega
      · rw [if_neg hdc] at hpos
        refine ⟨List.count_pos_iff.mp hpos, ?_⟩
        rintro ⟨hs, hf2⟩
        apply hdc
        rw [hdead]
        exact List.mem_filter.mpr ⟨List.count_pos_iff.mp hpos, by simp [hs, hf2]⟩
    · rintro ⟨hcmem, hnot⟩
      have hdc : c ∉ (broadcastPass
          (serverGridMessage w h emin emax bathymetry waterLevel) fails st.clients).2 := by
        rw [hdead]
        intro hcon
        obtain ⟨-, hcond⟩ := List.mem_filter.mp hcon
        simp only [Bool.and_eq_true, beq_iff_eq] at hcond
        exact hnot ⟨hcond.1, hcond.2⟩
      rw [← List.count_pos_iff, hcnt, if_neg hdc]
      exact List.count_pos_iff.mpr hcmem

/-- Witness for C6: two streaming sessions, write to session 0 fails — the
message still reaches session 1 and only session 0 is removed. -/
theorem broadcast_isolation_witness :
    (1, serverGridMessage 2 2 0 1 (fun _ _ => 0) (fun _ _ => 0))
      ∈ (communicationBroadcast 2 2 0 1 (fun _ _ => 0) (fun _ _ => 0) (fun k => k == 0)
          ⟨[⟨0, ClientState.streaming, false, (0, 0, 0), (0, 0, 0)⟩,
            ⟨1, ClientState.streaming, false, (0, 0, 0), (0, 0, 0)⟩], 2, 2⟩).2 ∧
    (⟨0, ClientState.streaming, false, (0, 0, 0), (0, 0, 0)⟩ : Client)
      ∉ (communicationBroadcast 2 2 0 1 (fun _ _ => 0) (fun _ _ => 0) (fun k => k == 0)
          ⟨[⟨0, ClientState.streaming, false, (0, 0, 0), (0, 0, 0)⟩,
            ⟨1, ClientState.streaming, false, (0, 0, 0), (0, 0, 0)⟩], 2, 2⟩).1.clients := by
  have h := broadcast_isolation 2 2 0 1 (fun _ _ => 0) (fun _ _ => 0) (fun k => k == 0)
    ⟨[⟨0, ClientState.streaming, false, (0, 0, 0), (0, 0, 0)⟩,
      ⟨1, ClientState.streaming, false, (0, 0, 0), (0, 0, 0)⟩], 2, 2⟩
    (by intro k; simp [List.countP_cons]; split_ifs <;> omega)
  refine ⟨?_, ?_⟩
  · exact h.1 ⟨1, ClientState.streaming, false, (0, 0, 0), (0, 0, 0)⟩
      (by simp) rfl rfl
  · intro hcon
    have hiff := (h.2 ⟨0, ClientState.streaming, false, (0, 0, 0), (0, 0, 0)⟩).mp hcon
    exact hiff.2 ⟨rfl, rfl⟩

end ARSandboxSnow
